import Mathlib

/-!
Shallow embedding of the cjaas-common-components timeline widget
(`src/components/timeline/index.ts` and `src/components/timeline/utils.ts`).

The widget keeps a bounded, newest-first buffer of normalized events
(`tapeEvents`), fed by a one-shot historical fetch (`getJourney`) and a live
push stream (`subscribeToStream`).  Timestamps are luxon `DateTime` values:
`DateTime.fromISO` is total and yields an *invalid* `DateTime` on unparseable
input, whose numeric value is `NaN`, so every JS comparison against it is
`false`.  We model a `DateTime` as `Option Int` (epoch milliseconds; `none` is
an invalid `DateTime`) and comparisons return `false` whenever either side is
`none`.  Exceptions (the JS `TypeError` from dereferencing `undefined`) are
modelled by `Option`-valued results, with `none` meaning the JS code would
throw.
-/

namespace CjaasTimeline

/-- The `type` property of the element: `"journey" | "livestream" | "journey-and-stream"`. -/
inductive Mode
  | journey
  | livestream
  | journeyAndStream
deriving DecidableEq

/-- Wire-format raw message (both the historical fetch items and parsed push
messages): `{ type, time, id, person?, data? }`. -/
structure RawMessage where
  type : String
  time : String
  id : String
  person : Option String := none
  data : Option String := none
deriving DecidableEq

/-- The `Timeline.TapeEvent` record of the source.  `timestamp` is a luxon
`DateTime`: `some t` when valid (epoch milliseconds `t`), `none` when invalid. -/
structure TapeEvent where
  title : String
  text : Option String := none
  person : Option String := none
  subText : Option String := none
  data : Option String := none
  footer : Option String := none
  timestamp : Option Int := none
  showMore : Option Bool := none
  id : String
deriving DecidableEq

/-- JS `a < b` on two `DateTime`s: numeric comparison, `false` whenever either
side is invalid (`NaN` comparisons are all `false`). -/
def tsLt : Option Int → Option Int → Bool
  | some a, some b => decide (a < b)
  | _, _ => false

/-- JS `a > b` on two `DateTime`s. -/
def tsGt (a b : Option Int) : Bool := tsLt b a

/-- JS `a <= b` on two valid `DateTime`s (used only to state sortedness;
`false` when either side is invalid). -/
def tsLe : Option Int → Option Int → Bool
  | some a, some b => decide (a ≤ b)
  | _, _ => false

/-- `dequeuePastOneEvent()`: `this.tapeEvents.shift()` — removes the FIRST
array element, i.e. the head of the newest-first buffer. -/
def dequeuePastOneEvent (l : List TapeEvent) : List TapeEvent := l.tail

/-- The eviction loop at the top of `enqueueEvent`:
`while (length >= limit && type === "livestream") this.dequeuePastOneEvent()`.
Each iteration drops the head (`shift`).  On an empty buffer with `limit = 0`
the JS loop never terminates; the spec requires `limit` positive, and we
return the empty buffer in that unreachable case. -/
def evictLoop (limit : Nat) (mode : Mode) : List TapeEvent → List TapeEvent
  | [] => []
  | x :: xs =>
    if limit ≤ xs.length + 1 ∧ mode = Mode.livestream then evictLoop limit mode xs
    else x :: xs

/-- The middle-insertion linear scan of `enqueueEvent`:
`while (currentItem.timestamp > event.timestamp && currentIndex < length)`.
The returned value is the final `currentIndex`.  `none` models the `TypeError`
the JS code throws when `currentIndex` runs past the end and the loop
condition dereferences `undefined.timestamp` (which happens exactly when every
remaining element's timestamp is `> t`); the `currentIndex < length` conjunct
is checked only after the dereference, so it never saves the loop. -/
def scanIdx (t : Option Int) : List TapeEvent → Option Nat
  | [] => none
  | x :: xs => if tsGt x.timestamp t then (scanIdx t xs).map (fun i => i + 1) else some 0

/-- `Array.prototype.splice(i, 0, e)`: insert `e` at position `i` (clamped). -/
def insertAt (l : List TapeEvent) (i : Nat) (e : TapeEvent) : List TapeEvent :=
  l.take i ++ e :: l.drop i

/-- `enqueueEvent(event)`.  First the livestream eviction loop runs, then the
event is placed: empty buffer → singleton; strictly newer than the head →
prepend; strictly older than the tail → append; otherwise the linear scan
finds the insertion index and `splice` inserts there.  `none` models the JS
`TypeError` from the scan running past the end. -/
def enqueueEvent (limit : Nat) (mode : Mode) (buf0 : List TapeEvent) (ev : TapeEvent) :
    Option (List TapeEvent) :=
  match evictLoop limit mode buf0 with
  | [] => some [ev]
  | x :: xs =>
    if tsLt x.timestamp ev.timestamp then
      some (ev :: x :: xs)
    else if tsGt (xs.getLastD x).timestamp ev.timestamp then
      some (x :: xs ++ [ev])
    else
      (scanIdx ev.timestamp (x :: xs)).map (fun i => insertAt (x :: xs) i ev)

/-- The buffer is sorted by timestamp, non-increasing from head to tail. -/
def sortedDescB : List TapeEvent → Bool
  | [] => true
  | [_] => true
  | a :: b :: t => tsLe b.timestamp a.timestamp && sortedDescB (b :: t)

/-- Every buffered event has a valid timestamp. -/
def allValidB (l : List TapeEvent) : Bool := l.all (fun e => e.timestamp.isSome)

/-- Fold a batch of already-normalized events into the buffer with
`enqueueEvent`, propagating a potential JS exception. -/
def enqueueAll (limit : Nat) (mode : Mode) (buf : List TapeEvent) (evs : List TapeEvent) :
    Option (List TapeEvent) :=
  evs.foldl (fun acc e => acc.bind (fun b => enqueueEvent limit mode b e)) (some buf)

/-- Run a sequence of `enqueueEvent` calls starting from the empty buffer. -/
def runEnqueue (limit : Nat) (mode : Mode) (evs : List TapeEvent) : Option (List TapeEvent) :=
  enqueueAll limit mode [] evs

/-- JS truthiness of an optional string property (`undefined`/`null` and the
empty string are falsy). -/
def truthyOpt : Option String → Bool
  | none => false
  | some s => s != ""

/-- `needle` occurs at the start of the character list. -/
def beginsWithChars : List Char → List Char → Bool
  | [], _ => true
  | _ :: _, [] => false
  | a :: as, b :: bs => a == b && beginsWithChars as bs

/-- `haystack.indexOf(needle) !== -1`: `needle` occurs somewhere. -/
def hasSubstring (needle : List Char) : List Char → Bool
  | [] => beginsWithChars needle []
  | b :: bs => beginsWithChars needle (b :: bs) || hasSubstring needle bs

def anonChars : List Char := ['a', 'n', 'o', 'n']

/-- `getTapeEventFromMessage(message)` from `utils.ts`, parameterized by the
external luxon parser `DateTime.fromISO` (total; `none` = invalid `DateTime`).
`person` is copied only when truthy and `person.indexOf("anon") === -1`;
`data` is copied only when truthy. -/
def getTapeEventFromMessage (fromISO : String → Option Int) (message : RawMessage) :
    TapeEvent :=
  { title := message.type
    timestamp := fromISO message.time
    id := message.id
    person :=
      match message.person with
      | some p => if p != "" && !(hasSubstring anonChars p.toList) then some p else none
      | none => none
    data :=
      match message.data with
      | some d => if d != "" then some d else none
      | none => none }

/-- The reactive state of the `cjs-timeline` element: the buffer, the
subscription-descriptor properties, the capacity, and whether a live
`EventSource` handle currently exists. -/
structure ComponentState where
  tapeEvents : List TapeEvent := []
  baseURL : String := "https://trycjaas.exp.bz"
  type : Mode := Mode.livestream
  filter : Option String := none
  streamId : Option String := none
  pagination : Option String := none
  limit : Nat := 5
  eventSource : Bool := false
deriving DecidableEq

/-- JS string coercion of a `string | null` value used in a template literal
or `+=` concatenation. -/
def strOfOpt : Option String → String
  | some s => s
  | none => "null"

/-- `getAPIQueryParams(forJourney)`: builds the query-string suffix from
`streamId`, `filter`, `pagination` (with the `&$top=10` journey default). -/
def getAPIQueryParams (s : ComponentState) (forJourney : Bool) : String :=
  let url := strOfOpt s.streamId
  let url2 := if truthyOpt s.filter then url ++ "&$filter=" ++ strOfOpt s.filter else url
  if truthyOpt s.pagination then url2 ++ "&" ++ strOfOpt s.pagination
  else if !truthyOpt s.pagination && forJourney then url2 ++ "&$top=10"
  else url2

/-- Observable network operations performed by the coordinator. -/
inductive NetAction
  | closeSource
  | fetchJourney (url : String)
  | openSource (url : String)
deriving DecidableEq

/-- The `.then` continuation of `getJourney()`: on a response it normalizes
every item and enqueues each in order (`x?.map(getTapeEventFromMessage).map(z
=> this.enqueueEvent(z))`).  `resp = none` is a nullish response body (the
optional-chained `map` does nothing).  Nothing here consults `streamId`,
`filter` or any fetch tag: the continuation only touches the buffer. -/
def handleJourneyResponse (fromISO : String → Option Int) (s : ComponentState)
    (resp : Option (List RawMessage)) : Option ComponentState :=
  match resp with
  | none => some s
  | some msgs =>
    (enqueueAll s.limit s.type s.tapeEvents (msgs.map (getTapeEventFromMessage fromISO))).map
      (fun b => { s with tapeEvents := b })

/-- `subscribeToStream()`: close any existing `EventSource`, issue the
historical fetch when the mode includes journey, and open a new `EventSource`
when the mode is not pure journey.  Returns the new state and the network
actions performed, in order. -/
def subscribeToStream (s : ComponentState) : ComponentState × List NetAction :=
  let closeActs := if s.eventSource then [NetAction.closeSource] else []
  let fetchActs :=
    if s.type = Mode.journey ∨ s.type = Mode.journeyAndStream then
      [NetAction.fetchJourney (s.baseURL ++ "/journey?" ++ getAPIQueryParams s true)]
    else []
  if s.type ≠ Mode.journey then
    ({ s with eventSource := true },
      closeActs ++ fetchActs ++
        [NetAction.openSource (s.baseURL ++ "/real-time?" ++ getAPIQueryParams s false)])
  else (s, closeActs ++ fetchActs)

/-- Outcome of `JSON.parse(event.data)` inside the `onmessage` handler:
`parseFail` models the thrown `SyntaxError` (caught, leaving `data`
undefined), `parsedFalsy` a successfully parsed falsy value (the `if (data)`
guard rejects it), `parsedObj m` a successfully parsed message object. -/
inductive PushParse
  | parseFail
  | parsedFalsy
  | parsedObj (m : RawMessage)
deriving DecidableEq

/-- The `onmessage` handler installed by `subscribeToStream`: try to parse,
swallow parse errors, and enqueue the normalized event only when the parsed
value is truthy. -/
def onStreamMessage (fromISO : String → Option Int) (s : ComponentState) (pr : PushParse) :
    Option ComponentState :=
  match pr with
  | PushParse.parseFail => some s
  | PushParse.parsedFalsy => some s
  | PushParse.parsedObj m =>
    (enqueueEvent s.limit s.type s.tapeEvents (getTapeEventFromMessage fromISO m)).map
      (fun b => { s with tapeEvents := b })

/-- One iteration body of the `changedProperties.forEach` in `updated`: an
entry is a `(name, oldValue)` pair; the flag is raised when `streamId` changed
and is currently truthy, or when `filter` changed to a different value while
`streamId` is truthy. -/
def updateTrigger (s : ComponentState) (entry : String × Option String) : Bool :=
  if entry.1 == "streamId" && truthyOpt s.streamId then true
  else if entry.1 == "filter" && (s.filter != entry.2) && truthyOpt s.streamId then true
  else false

/-- The flag computed by the `forEach` loop in `updated`. -/
def updatedFlag (s : ComponentState) (changed : List (String × Option String)) : Bool :=
  changed.foldl (fun flag entry => if updateTrigger s entry then true else flag) false

/-- `updated(changedProperties)`: when the flag is raised, the buffer is reset
to `[]` and `subscribeToStream()` runs on the cleared state.  Returns the
resulting state, whether `subscribeToStream` was invoked, and the network
actions it performed. -/
def updated (s : ComponentState) (changed : List (String × Option String)) :
    ComponentState × Bool × List NetAction :=
  if updatedFlag s changed then
    ((subscribeToStream { s with tapeEvents := [] }).1, true,
      (subscribeToStream { s with tapeEvents := [] }).2)
  else (s, false, [])

/-- Event with a valid timestamp, for concrete test inputs. -/
def mkEv (t : Int) : TapeEvent := { title := "e", timestamp := some t, id := "x" }

/-- A concrete stand-in for luxon's `DateTime.fromISO`: parses the one ISO
instant used in the concrete inputs of this development and is invalid on
everything else. -/
def exFromISO (s : String) : Option Int :=
  if s = "2024-01-01T00:00:00Z" then some 1704067200000 else none

/-- A raw message whose time field is not parseable. -/
def badMsg : RawMessage := { type := "task", time := "not-a-date", id := "m1" }

/-- A component in historical-only mode with an empty buffer. -/
def jState : ComponentState := { type := Mode.journey }

/-- The normalization of `badMsg` (its timestamp is an invalid `DateTime`). -/
def badEv : TapeEvent := getTapeEventFromMessage exFromISO badMsg

/-- A raw message from a historical fetch issued under an older descriptor. -/
def staleMsg : RawMessage := { type := "old", time := "2020-01-01T00:00:00Z", id := "s1" }

/-- The component right after the descriptor changed to `streamId = "B"` and
the buffer was cleared: the state in which a stale fetch response arrives. -/
def clearedState : ComponentState := { streamId := some "B", type := Mode.journey }

/-- An active journey-and-stream component subscribed to stream `"A"`. -/
def c6State : ComponentState := { streamId := some "A", type := Mode.journeyAndStream }

/-- A raw message whose person field is present but the empty string. -/
def emptyPersonMsg : RawMessage := { type := "t", time := "x", id := "1", person := some "" }

/-- A raw message with an anonymous person marker. -/
def anonMsg : RawMessage := { type := "t", time := "x", id := "2", person := some "anon-123" }

/-- A raw message with a regular person identifier. -/
def aliceMsg : RawMessage := { type := "t", time := "x", id := "3", person := some "alice" }

end CjaasTimeline

namespace CjaasTimeline

/-! ## Helper lemmas -/

theorem sortedDescB_tail {a : TapeEvent} {l : List TapeEvent}
    (h : sortedDescB (a :: l) = true) : sortedDescB l = true := by
  cases l with
  | nil => rfl
  | cons b t =>
    have h' := h
    simp only [sortedDescB, Bool.and_eq_true] at h'
    exact h'.2

theorem sortedDescB_cons_of (a b : TapeEvent) (l : List TapeEvent)
    (h1 : tsLe b.timestamp a.timestamp = true) (h2 : sortedDescB (b :: l) = true) :
    sortedDescB (a :: b :: l) = true := by
  simp [sortedDescB, h1, h2]

theorem sortedDescB_cons_elim {a b : TapeEvent} {l : List TapeEvent}
    (h : sortedDescB (a :: b :: l) = true) :
    tsLe b.timestamp a.timestamp = true ∧ sortedDescB (b :: l) = true := by
  simpa only [sortedDescB, Bool.and_eq_true] using h

theorem allValidB_cons {a : TapeEvent} {l : List TapeEvent} :
    allValidB (a :: l) = true ↔ a.timestamp.isSome = true ∧ allValidB l = true := by
  simp [allValidB]

theorem tsLe_of_tsLt {a b : Option Int} (h : tsLt a b = true) : tsLe a b = true := by
  cases a with
  | none => simp [tsLt] at h
  | some x =>
    cases b with
    | none => simp [tsLt] at h
    | some y =>
      simp only [tsLt, decide_eq_true_eq] at h
      simp only [tsLe, decide_eq_true_eq]
      omega

theorem tsLe_of_not_tsLt {a b : Option Int} (ha : a.isSome = true) (hb : b.isSome = true)
    (h : tsLt a b = false) : tsLe b a = true := by
  cases a with
  | none => simp at ha
  | some x =>
    cases b with
    | none => simp at hb
    | some y =>
      simp only [tsLt, decide_eq_false_iff_not] at h
      simp only [tsLe, decide_eq_true_eq]
      omega

theorem evictLoop_sorted (limit : Nat) (mode : Mode) :
    ∀ l : List TapeEvent, sortedDescB l = true → sortedDescB (evictLoop limit mode l) = true := by
  intro l
  induction l with
  | nil => intro h; simpa [evictLoop] using h
  | cons x xs ih =>
    intro h
    by_cases hc : limit ≤ xs.length + 1 ∧ mode = Mode.livestream
    · simpa [evictLoop, hc] using ih (sortedDescB_tail h)
    · simpa [evictLoop, hc] using h

theorem evictLoop_valid (limit : Nat) (mode : Mode) :
    ∀ l : List TapeEvent, allValidB l = true → allValidB (evictLoop limit mode l) = true := by
  intro l
  induction l with
  | nil => intro h; simpa [evictLoop] using h
  | cons x xs ih =>
    intro h
    by_cases hc : limit ≤ xs.length + 1 ∧ mode = Mode.livestream
    · simpa [evictLoop, hc] using ih (allValidB_cons.mp h).2
    · simpa [evictLoop, hc] using h

theorem evictLoop_id (limit : Nat) (mode : Mode) (hm : mode ≠ Mode.livestream) :
    ∀ l : List TapeEvent, evictLoop limit mode l = l := by
  intro l
  cases l with
  | nil => rfl
  | cons x xs => simp [evictLoop, hm]

theorem scanIdx_cons (t : Option Int) (x : TapeEvent) (xs : List TapeEvent) :
    scanIdx t (x :: xs) =
      if tsGt x.timestamp t then (scanIdx t xs).map (fun i => i + 1) else some 0 := rfl

theorem scanIdx_total (t : Option Int) :
    ∀ (xs : List TapeEvent) (x : TapeEvent),
      tsGt (xs.getLastD x).timestamp t = false →
      ∃ i, scanIdx t (x :: xs) = some i ∧ i ≤ xs.length := by
  intro xs
  induction xs with
  | nil =>
    intro x h
    rw [List.getLastD_nil] at h
    exact ⟨0, by rw [scanIdx_cons, if_neg (by simp [h])], Nat.le_refl 0⟩
  | cons y ys ih =>
    intro x h
    rw [List.getLastD_cons] at h
    by_cases hx : tsGt x.timestamp t = true
    · obtain ⟨i, hi, hile⟩ := ih y h
      refine ⟨i + 1, ?_, Nat.succ_le_succ hile⟩
      rw [scanIdx_cons, if_pos hx, hi]
      rfl
    · exact ⟨0, by rw [scanIdx_cons, if_neg hx], Nat.zero_le _⟩

theorem insertAt_length (l : List TapeEvent) (i : Nat) (e : TapeEvent) :
    (insertAt l i e).length = l.length + 1 := by
  simp only [insertAt, List.length_append, List.length_take, List.length_cons, List.length_drop]
  omega

theorem insertAt_mem_self (l : List TapeEvent) (i : Nat) (e : TapeEvent) :
    e ∈ insertAt l i e := by
  simp [insertAt]

theorem insertAt_mem_of_mem (l : List TapeEvent) (i : Nat) (e y : TapeEvent) (h : y ∈ l) :
    y ∈ insertAt l i e := by
  rw [← List.take_append_drop i l] at h
  rcases List.mem_append.mp h with h' | h' <;> simp [insertAt, h']

theorem insertAt_valid (l : List TapeEvent) (i : Nat) (e : TapeEvent)
    (hl : allValidB l = true) (he : e.timestamp.isSome = true) :
    allValidB (insertAt l i e) = true := by
  simp only [allValidB, List.all_eq_true] at hl ⊢
  intro y hy
  simp only [insertAt] at hy
  rcases List.mem_append.mp hy with h | h
  · exact hl y (List.take_subset i l h)
  · rcases List.mem_cons.mp h with h | h
    · rw [h]; exact he
    · exact hl y (List.drop_subset i l h)

theorem enqueueEvent_eq_nil (limit : Nat) (mode : Mode) (buf0 : List TapeEvent) (ev : TapeEvent)
    (hev : evictLoop limit mode buf0 = []) : enqueueEvent limit mode buf0 ev = some [ev] := by
  unfold enqueueEvent
  rw [hev]

theorem enqueueEvent_eq_cons (limit : Nat) (mode : Mode) (buf0 : List TapeEvent)
    (ev x : TapeEvent) (xs : List TapeEvent) (hev : evictLoop limit mode buf0 = x :: xs) :
    enqueueEvent limit mode buf0 ev =
      if tsLt x.timestamp ev.timestamp then some (ev :: x :: xs)
      else if tsGt (xs.getLastD x).timestamp ev.timestamp then some (x :: xs ++ [ev])
      else (scanIdx ev.timestamp (x :: xs)).map (fun i => insertAt (x :: xs) i ev) := by
  unfold enqueueEvent
  rw [hev]

theorem enqueueEvent_total (limit : Nat) (mode : Mode) (buf : List TapeEvent) (e : TapeEvent) :
    ∃ buf', enqueueEvent limit mode buf e = some buf' ∧
      buf'.length = (evictLoop limit mode buf).length + 1 ∧
      e ∈ buf' ∧ ∀ y ∈ evictLoop limit mode buf, y ∈ buf' := by
  rcases hev : evictLoop limit mode buf with _ | ⟨x, xs⟩
  · exact ⟨[e], enqueueEvent_eq_nil limit mode buf e hev, by simp, by simp, by simp⟩
  · by_cases h1 : tsLt x.timestamp e.timestamp = true
    · refine ⟨e :: x :: xs, ?_, by simp, by simp, ?_⟩
      · rw [enqueueEvent_eq_cons limit mode buf e x xs hev, if_pos h1]
      · intro y hy
        exact List.mem_cons_of_mem e hy
    · by_cases h2 : tsGt (xs.getLastD x).timestamp e.timestamp = true
      · refine ⟨x :: xs ++ [e], ?_, by simp, by simp, ?_⟩
        · rw [enqueueEvent_eq_cons limit mode buf e x xs hev, if_neg h1, if_pos h2]
        · intro y hy
          rcases List.mem_cons.mp hy with h | h
          · simp [h]
          · simp [h]
      · have h2' : tsGt (xs.getLastD x).timestamp e.timestamp = false := by simpa using h2
        obtain ⟨i, hi, _⟩ := scanIdx_total e.timestamp xs x h2'
        refine ⟨insertAt (x :: xs) i e, ?_, ?_,
          insertAt_mem_self _ _ _, fun y hy => insertAt_mem_of_mem _ _ _ _ hy⟩
        · rw [enqueueEvent_eq_cons limit mode buf e x xs hev, if_neg h1, if_neg h2, hi]
          rfl
        · rw [insertAt_length (x :: xs) i e]

theorem enqueueAll_none (limit : Nat) (mode : Mode) (es : List TapeEvent) :
    List.foldl (fun acc e => acc.bind (fun b => enqueueEvent limit mode b e))
      (none : Option (List TapeEvent)) es = none := by
  induction es with
  | nil => rfl
  | cons e es ih => simpa using ih

theorem enqueueAll_cons (limit : Nat) (mode : Mode) (buf : List TapeEvent) (e : TapeEvent)
    (es : List TapeEvent) :
    enqueueAll limit mode buf (e :: es) =
      (enqueueEvent limit mode buf e).bind (fun b => enqueueAll limit mode b es) := by
  cases h : enqueueEvent limit mode buf e with
  | none => simp [enqueueAll, h, enqueueAll_none]
  | some b => simp [enqueueAll, h]

theorem enqueueAll_total_nonlive (limit : Nat) (mode : Mode) (hm : mode ≠ Mode.livestream) :
    ∀ (evs : List TapeEvent) (buf : List TapeEvent),
      ∃ buf', enqueueAll limit mode buf evs = some buf' ∧
        buf'.length = buf.length + evs.length ∧ ∀ y ∈ buf, y ∈ buf' := by
  intro evs
  induction evs with
  | nil => intro buf; exact ⟨buf, rfl, by simp, fun y hy => hy⟩
  | cons e es ih =>
    intro buf
    obtain ⟨buf1, h1, hlen1, _, hmem1⟩ := enqueueEvent_total limit mode buf e
    rw [evictLoop_id limit mode hm buf] at hlen1 hmem1
    obtain ⟨buf', h2, hlen2, hmem2⟩ := ih buf1
    refine ⟨buf', ?_, by simp only [List.length_cons]; omega, fun y hy => hmem2 y (hmem1 y hy)⟩
    rw [enqueueAll_cons, h1]
    exact h2

theorem subscribeToStream_tapeEvents (s : ComponentState) :
    (subscribeToStream s).1.tapeEvents = s.tapeEvents := by
  by_cases h : s.type ≠ Mode.journey
  · simp [subscribeToStream, h]
  · simp [subscribeToStream, h]

theorem insertAt_zero (l : List TapeEvent) (e : TapeEvent) : insertAt l 0 e = e :: l := rfl

theorem insertAt_succ (x : TapeEvent) (l : List TapeEvent) (i : Nat) (e : TapeEvent) :
    insertAt (x :: l) (i + 1) e = x :: insertAt l i e := rfl

theorem sortedDescB_append_last (e : TapeEvent) :
    ∀ (xs : List TapeEvent) (x : TapeEvent),
      sortedDescB (x :: xs) = true →
      tsLe e.timestamp (xs.getLastD x).timestamp = true →
      sortedDescB (x :: xs ++ [e]) = true := by
  intro xs
  induction xs with
  | nil =>
    intro x _ he
    rw [List.getLastD_nil] at he
    exact sortedDescB_cons_of x e [] he rfl
  | cons y ys ih =>
    intro x hs he
    rw [List.getLastD_cons] at he
    obtain ⟨h1, h2⟩ := sortedDescB_cons_elim hs
    exact sortedDescB_cons_of x y (ys ++ [e]) h1 (ih y h2 he)

theorem scanIdx_insert_sorted (t : Int) (e : TapeEvent) (he : e.timestamp = some t) :
    ∀ (xs : List TapeEvent) (x : TapeEvent),
      sortedDescB (x :: xs) = true →
      allValidB (x :: xs) = true →
      tsGt (xs.getLastD x).timestamp (some t) = false →
      ∃ i, scanIdx (some t) (x :: xs) = some i ∧
        sortedDescB (insertAt (x :: xs) i e) = true := by
  intro xs
  induction xs with
  | nil =>
    intro x _ hv hlast
    rw [List.getLastD_nil] at hlast
    have hxv : x.timestamp.isSome = true := (allValidB_cons.mp hv).1
    refine ⟨0, ?_, ?_⟩
    · rw [scanIdx_cons, if_neg (by simp [hlast])]
    · rw [insertAt_zero]
      refine sortedDescB_cons_of e x [] ?_ rfl
      rw [he]
      exact tsLe_of_not_tsLt (by simp) hxv hlast
  | cons y ys ih =>
    intro x hs hv hlast
    rw [List.getLastD_cons] at hlast
    have hxv : x.timestamp.isSome = true := (allValidB_cons.mp hv).1
    by_cases hx : tsGt x.timestamp (some t) = true
    · obtain ⟨h1, h2⟩ := sortedDescB_cons_elim hs
      have hv2 : allValidB (y :: ys) = true := (allValidB_cons.mp hv).2
      obtain ⟨i, hi, hins⟩ := ih y h2 hv2 hlast
      refine ⟨i + 1, ?_, ?_⟩
      · rw [scanIdx_cons, if_pos hx, hi]
        rfl
      · rw [insertAt_succ]
        cases i with
        | zero =>
          rw [insertAt_zero] at hins ⊢
          exact sortedDescB_cons_of x e (y :: ys) (by rw [he]; exact tsLe_of_tsLt hx) hins
        | succ j =>
          rw [insertAt_succ] at hins ⊢
          exact sortedDescB_cons_of x y _ h1 hins
    · have hx' : tsGt x.timestamp (some t) = false := by simpa using hx
      refine ⟨0, ?_, ?_⟩
      · rw [scanIdx_cons, if_neg hx]
      · rw [insertAt_zero]
        refine sortedDescB_cons_of e x (y :: ys) ?_ hs
        rw [he]
        exact tsLe_of_not_tsLt (by simp) hxv hx'

theorem enqueueEvent_sorted (limit : Nat) (mode : Mode) (buf : List TapeEvent) (e : TapeEvent)
    (hs : sortedDescB buf = true) (hv : allValidB buf = true) (he : e.timestamp.isSome = true) :
    ∃ buf', enqueueEvent limit mode buf e = some buf' ∧ sortedDescB buf' = true ∧
      allValidB buf' = true := by
  have hs' := evictLoop_sorted limit mode buf hs
  have hv' := evictLoop_valid limit mode buf hv
  rcases hev : evictLoop limit mode buf with _ | ⟨x, xs⟩
  · refine ⟨[e], enqueueEvent_eq_nil limit mode buf e hev, rfl, ?_⟩
    simp [allValidB, he]
  · rw [hev] at hs' hv'
    have hxv : x.timestamp.isSome = true := (allValidB_cons.mp hv').1
    by_cases h1 : tsLt x.timestamp e.timestamp = true
    · refine ⟨e :: x :: xs, ?_, ?_, ?_⟩
      · rw [enqueueEvent_eq_cons limit mode buf e x xs hev, if_pos h1]
      · exact sortedDescB_cons_of e x xs (tsLe_of_tsLt h1) hs'
      · exact allValidB_cons.mpr ⟨he, hv'⟩
    · by_cases h2 : tsGt (xs.getLastD x).timestamp e.timestamp = true
      · refine ⟨x :: xs ++ [e], ?_, ?_, ?_⟩
        · rw [enqueueEvent_eq_cons limit mode buf e x xs hev, if_neg h1, if_pos h2]
        · exact sortedDescB_append_last e xs x hs' (tsLe_of_tsLt h2)
        · simp only [allValidB, List.all_cons, List.all_append, List.all_nil,
            Bool.and_eq_true] at hv' ⊢
          simp_all
      · have h2' : tsGt (xs.getLastD x).timestamp e.timestamp = false := by simpa using h2
        obtain ⟨t, ht⟩ := Option.isSome_iff_exists.mp he
        obtain ⟨i, hi, hins⟩ :=
          scanIdx_insert_sorted t e ht xs x hs' hv' (by rw [← ht]; exact h2')
        refine ⟨insertAt (x :: xs) i e, ?_, hins, ?_⟩
        · rw [enqueueEvent_eq_cons limit mode buf e x xs hev, if_neg h1, if_neg h2, ht, hi]
          rfl
        · exact insertAt_valid (x :: xs) i e hv' he

theorem updatedFlag_any (s : ComponentState) (changed : List (String × Option String)) :
    updatedFlag s changed = changed.any (updateTrigger s) := by
  suffices h : ∀ (l : List (String × Option String)) (b : Bool),
      List.foldl (fun flag entry => if updateTrigger s entry then true else flag) b l =
        (b || l.any (updateTrigger s)) by
    simpa [updatedFlag] using h changed false
  intro l
  induction l with
  | nil => intro b; simp
  | cons entry es ih =>
    intro b
    rw [List.foldl_cons, List.any_cons, ih]
    cases h : updateTrigger s entry with
    | false => simp [h]
    | true => simp [h]

end CjaasTimeline

namespace CjaasTimeline

/-! ## Claim theorems -/

/-- C1: the claim says that in `livestream` mode every eviction removes the
oldest element (the tail of the newest-first sequence), so inserting `t=6`
into `[5,4,3]` with `limit=3` yields `[6,5,4]`.  The code's
`dequeuePastOneEvent` calls `Array.shift()`, which removes the FIRST element —
the head, i.e. the NEWEST event — so the same insertion actually yields
`[6,4,3]`: the `t=5` event is evicted and `t=3` survives.  This theorem
evaluates the code at the claim's own scenario. -/
theorem c1_eviction_removes_newest :
    dequeuePastOneEvent [mkEv 5, mkEv 4, mkEv 3] = [mkEv 4, mkEv 3] ∧
    enqueueEvent 3 Mode.livestream [mkEv 5, mkEv 4, mkEv 3] (mkEv 6) =
      some [mkEv 6, mkEv 4, mkEv 3] ∧
    enqueueEvent 3 Mode.livestream [mkEv 5, mkEv 4, mkEv 3] (mkEv 6) ≠
      some [mkEv 6, mkEv 5, mkEv 4] := by
  refine ⟨rfl, by decide, by decide⟩

/-- C2: for every sequence of insertions via `enqueueEvent` starting from the
empty buffer (with a positive `limit`, as the spec requires, and events
carrying valid timestamps), every call returns normally and the buffer is
sorted by timestamp in non-increasing order from head to tail after every
call.  Since the events list is universally quantified, every prefix of a
sequence of calls — i.e. every observable point — is covered. -/
theorem c2_buffer_stays_sorted (limit : Nat) (mode : Mode) (evs : List TapeEvent)
    (hlimit : 1 ≤ limit) (hvalid : ∀ e ∈ evs, e.timestamp.isSome = true) :
    ∃ buf, runEnqueue limit mode evs = some buf ∧ sortedDescB buf = true := by
  have _ := hlimit
  suffices h : ∀ (l : List TapeEvent) (buf : List TapeEvent),
      (∀ e ∈ l, e.timestamp.isSome = true) → sortedDescB buf = true →
      allValidB buf = true →
      ∃ buf', enqueueAll limit mode buf l = some buf' ∧ sortedDescB buf' = true ∧
        allValidB buf' = true by
    obtain ⟨buf, h1, h2, _⟩ := h evs [] hvalid rfl rfl
    exact ⟨buf, h1, h2⟩
  intro l
  induction l with
  | nil =>
    intro buf _ hs hv
    exact ⟨buf, rfl, hs, hv⟩
  | cons e es ih =>
    intro buf hval hs hv
    obtain ⟨buf1, h1, hs1, hv1⟩ :=
      enqueueEvent_sorted limit mode buf e hs hv (hval e (by simp))
    obtain ⟨buf', h2, hs2, hv2⟩ := ih buf1 (fun x hx => hval x (by simp [hx])) hs1 hv1
    refine ⟨buf', ?_, hs2, hv2⟩
    rw [enqueueAll_cons, h1]
    exact h2

/-- Witness for C2 at the spec's own scenario: timestamps 5, 4, 3, 6 with
`limit = 3` in `livestream` mode. -/
theorem c2_witness :
    ∃ buf, runEnqueue 3 Mode.livestream [mkEv 5, mkEv 4, mkEv 3, mkEv 6] = some buf ∧
      sortedDescB buf = true :=
  c2_buffer_stays_sorted 3 Mode.livestream [mkEv 5, mkEv 4, mkEv 3, mkEv 6]
    (by decide) (by decide)

/-- C3 counterexample: the claim says that in `journey-and-stream` mode
live-stream insertions enforce the capacity bound.  The eviction loop is
guarded by `this.type === "livestream"`, so with `limit = 1` and mode
`journey-and-stream`, inserting `t=6` into `[5]` evicts nothing and leaves a
buffer of length 2 > 1. -/
theorem c3_counterexample :
    enqueueEvent 1 Mode.journeyAndStream [mkEv 5] (mkEv 6) = some [mkEv 6, mkEv 5] ∧
    ¬ (([mkEv 6, mkEv 5] : List TapeEvent).length ≤ 1) := by
  exact ⟨by decide, by decide⟩

/-- C3 amended: in `journey-and-stream` mode insertions never enforce the
capacity bound — the eviction loop requires mode `livestream` exactly, so no
eviction occurs and every insertion grows the buffer by exactly one,
whatever `limit` is. -/
theorem c3_no_eviction_in_journey_and_stream (limit : Nat) (buf : List TapeEvent)
    (e : TapeEvent) :
    ∃ buf', enqueueEvent limit Mode.journeyAndStream buf e = some buf' ∧
      buf'.length = buf.length + 1 := by
  obtain ⟨buf', h1, h2, _, _⟩ := enqueueEvent_total limit Mode.journeyAndStream buf e
  rw [evictLoop_id limit Mode.journeyAndStream (by decide) buf] at h2
  exact ⟨buf', h1, h2⟩

/-- C4 counterexample: the claim says a raw message whose time field is
unparseable fails normalization with a `ParseError` and is dropped, never
inserted.  Luxon's `DateTime.fromISO` is total (it returns an invalid
`DateTime` instead of throwing) and `getJourney`'s response continuation
enqueues every normalized item, so the message IS inserted — with an invalid
timestamp — into the buffer. -/
theorem c4_counterexample :
    exFromISO badMsg.time = none ∧
    badEv.timestamp = none ∧
    handleJourneyResponse exFromISO jState (some [badMsg]) =
      some { jState with tapeEvents := [badEv] } := by
  refine ⟨rfl, rfl, by decide⟩

/-- C4 amended: normalization never fails — a raw message whose time field is
not parseable is normalized to an Event with an invalid (`none`) timestamp
and is inserted into the buffer like any other item, and the rest of the
batch is still processed (shown here in `journey` mode, the mode of the
historical fetch path, where no eviction can remove it again). -/
theorem c4_unparseable_still_inserted (fromISO : String → Option Int) (s : ComponentState)
    (m : RawMessage) (rest : List RawMessage) (hmode : s.type = Mode.journey)
    (hbad : fromISO m.time = none) :
    (getTapeEventFromMessage fromISO m).timestamp = none ∧
    ∃ s', handleJourneyResponse fromISO s (some (m :: rest)) = some s' ∧
      getTapeEventFromMessage fromISO m ∈ s'.tapeEvents := by
  have hm : s.type ≠ Mode.livestream := by rw [hmode]; decide
  refine ⟨by simp [getTapeEventFromMessage, hbad], ?_⟩
  obtain ⟨buf1, h1, _, hmem1, _⟩ :=
    enqueueEvent_total s.limit s.type s.tapeEvents (getTapeEventFromMessage fromISO m)
  obtain ⟨buf', h2, _, hsub⟩ :=
    enqueueAll_total_nonlive s.limit s.type hm (rest.map (getTapeEventFromMessage fromISO)) buf1
  refine ⟨{ s with tapeEvents := buf' }, ?_, hsub _ hmem1⟩
  simp only [handleJourneyResponse, List.map_cons]
  rw [enqueueAll_cons, h1, Option.some_bind, h2]
  rfl

/-- Witness for C4's amended theorem at the concrete unparseable message. -/
theorem c4_witness :
    (getTapeEventFromMessage exFromISO badMsg).timestamp = none ∧
    ∃ s', handleJourneyResponse exFromISO jState (some (badMsg :: [])) = some s' ∧
      getTapeEventFromMessage exFromISO badMsg ∈ s'.tapeEvents :=
  c4_unparseable_still_inserted exFromISO jState badMsg [] rfl rfl

/-- C5 counterexample: the claim says a historical-fetch response arriving
after the descriptor changed (and the buffer was cleared) is discarded, none
of its events inserted.  The response continuation carries no descriptor tag
and performs no comparison: delivered to the post-change state (`streamId =
"B"`, empty buffer), the stale response's event is inserted. -/
theorem c5_counterexample :
    clearedState.tapeEvents = [] ∧
    handleJourneyResponse exFromISO clearedState (some [staleMsg]) =
      some { clearedState with
               tapeEvents := [getTapeEventFromMessage exFromISO staleMsg] } ∧
    ([getTapeEventFromMessage exFromISO staleMsg] : List TapeEvent) ≠ [] := by
  refine ⟨rfl, by decide, by decide⟩

/-- C5 amended: the coordinator does not tag fetches with a descriptor and
never compares descriptors on completion — a historical-fetch response is
processed whenever it arrives, whatever the current `streamId` and `filter`
are, and (in `journey` mode, the historical path) every one of its events is
inserted into the buffer. -/
theorem c5_stale_response_still_inserted (fromISO : String → Option Int)
    (s : ComponentState) (msgs : List RawMessage) (sid fil : Option String)
    (hmode : s.type = Mode.journey) :
    ∃ s', handleJourneyResponse fromISO { s with streamId := sid, filter := fil }
        (some msgs) = some s' ∧
      s'.tapeEvents.length = s.tapeEvents.length + msgs.length := by
  have hm : s.type ≠ Mode.livestream := by rw [hmode]; decide
  obtain ⟨buf', h, hlen, _⟩ :=
    enqueueAll_total_nonlive s.limit s.type hm (msgs.map (getTapeEventFromMessage fromISO))
      s.tapeEvents
  refine ⟨{ s with streamId := sid, filter := fil, tapeEvents := buf' }, ?_, ?_⟩
  · simp only [handleJourneyResponse]
    rw [h]
    rfl
  · simpa using hlen

/-- Witness for C5's amended theorem: a one-message stale response delivered
after the descriptor moved to `streamId = "B"`. -/
theorem c5_witness :
    ∃ s', handleJourneyResponse exFromISO
        { ({ type := Mode.journey, tapeEvents := [mkEv 5] } : ComponentState) with
          streamId := some "B", filter := none } (some [staleMsg]) = some s' ∧
      s'.tapeEvents.length =
        ({ type := Mode.journey, tapeEvents := [mkEv 5] } :
          ComponentState).tapeEvents.length + [staleMsg].length :=
  c5_stale_response_still_inserted exFromISO
    { type := Mode.journey, tapeEvents := [mkEv 5] } [staleMsg] (some "B") none rfl

/-- C6 counterexample: the claim says invoking the subscribe operation a
second time with an identical descriptor while already active is a no-op with
no additional network calls.  `subscribeToStream` has no idempotence guard:
called again on the state produced by a first call — with `streamId`,
`filter`, `pagination` and mode unchanged — it issues another historical
fetch and opens another live connection. -/
theorem c6_counterexample :
    (subscribeToStream c6State).1.streamId = c6State.streamId ∧
    (subscribeToStream c6State).1.filter = c6State.filter ∧
    (subscribeToStream c6State).1.pagination = c6State.pagination ∧
    (subscribeToStream c6State).1.type = c6State.type ∧
    ((subscribeToStream (subscribeToStream c6State).1).2.any fun a =>
      match a with
      | NetAction.fetchJourney _ => true
      | _ => false) = true ∧
    ((subscribeToStream (subscribeToStream c6State).1).2.any fun a =>
      match a with
      | NetAction.openSource _ => true
      | _ => false) = true := by
  refine ⟨rfl, rfl, rfl, rfl, by decide, by decide⟩

/-- C6 amended: re-invoking the subscribe operation is never a no-op — every
call in `journey-and-stream` mode issues a fresh historical fetch and opens a
fresh live connection (closing the previous handle first), regardless of
whether the descriptor changed. -/
theorem c6_resubscribe_not_noop (s : ComponentState) (h : s.type = Mode.journeyAndStream) :
    (∃ u, NetAction.fetchJourney u ∈ (subscribeToStream s).2) ∧
    (∃ v, NetAction.openSource v ∈ (subscribeToStream s).2) := by
  have hj : s.type ≠ Mode.journey := by rw [h]; decide
  refine ⟨⟨s.baseURL ++ "/journey?" ++ getAPIQueryParams s true, ?_⟩,
    ⟨s.baseURL ++ "/real-time?" ++ getAPIQueryParams s false, ?_⟩⟩
  · simp [subscribeToStream, h, hj]
  · simp [subscribeToStream, h, hj]

/-- Witness for C6's amended theorem at the active journey-and-stream
component. -/
theorem c6_witness :
    (∃ u, NetAction.fetchJourney u ∈ (subscribeToStream c6State).2) ∧
    (∃ v, NetAction.openSource v ∈ (subscribeToStream c6State).2) :=
  c6_resubscribe_not_noop c6State rfl

/-- C7: whenever `streamId` is among the changed properties while its current
value is set (truthy), or `filter` is among the changed properties with a
genuinely different value while `streamId` is set, `updated` resets the
buffer to the empty sequence (before any new insertion can occur — the new
subscription only registers callbacks) and triggers `subscribeToStream`. -/
theorem c7_descriptor_change_clears (s : ComponentState)
    (changed : List (String × Option String))
    (hsid : truthyOpt s.streamId = true)
    (htrig : (∃ old, ("streamId", old) ∈ changed) ∨
             (∃ old, ("filter", old) ∈ changed ∧ s.filter ≠ old)) :
    (updated s changed).1.tapeEvents = [] ∧ (updated s changed).2.1 = true := by
  have hflag : updatedFlag s changed = true := by
    rw [updatedFlag_any]
    rcases htrig with ⟨old, hmem⟩ | ⟨old, hmem, hne⟩
    · refine List.any_eq_true.mpr ⟨("streamId", old), hmem, ?_⟩
      simp [updateTrigger, hsid]
    · refine List.any_eq_true.mpr ⟨("filter", old), hmem, ?_⟩
      simp [updateTrigger, hsid, hne]
  constructor
  · simp only [updated, hflag, if_true]
    rw [subscribeToStream_tapeEvents]
  · simp [updated, hflag]

/-- Witness for C7: a component subscribed to stream `"A"` whose `streamId`
property just changed. -/
theorem c7_witness :
    (updated ({ streamId := some "A" } : ComponentState) [("streamId", none)]).1.tapeEvents
      = [] ∧
    (updated ({ streamId := some "A" } : ComponentState) [("streamId", none)]).2.1 = true :=
  c7_descriptor_change_clears { streamId := some "A" } [("streamId", none)]
    (by decide) (Or.inl ⟨none, by decide⟩)

/-- C8 counterexample: the claim says that for every raw message with a person
field, if the value does not contain `"anon"` the normalized event's person
equals the raw value unchanged.  The code's guard is
`message.person && message.person.indexOf("anon") === -1`, so a present but
EMPTY person value — which does not contain `"anon"` — is falsy and gets
dropped, contradicting the claim. -/
theorem c8_counterexample :
    emptyPersonMsg.person = some "" ∧
    hasSubstring anonChars "".toList = false ∧
    (getTapeEventFromMessage exFromISO emptyPersonMsg).person = none ∧
    (getTapeEventFromMessage exFromISO emptyPersonMsg).person ≠ some "" := by
  refine ⟨rfl, rfl, by decide, by decide⟩

/-- C8 amended: for every raw message with a NONEMPTY person value, if the
value contains the substring `"anon"` the normalized event has no person
field, and otherwise the normalized event's person equals the raw value
unchanged (an empty person value is also omitted, by the truthiness guard). -/
theorem c8_person_filtering (fromISO : String → Option Int) (m : RawMessage) (p : String)
    (hp : m.person = some p) (hne : p ≠ "") :
    (hasSubstring anonChars p.toList = true →
      (getTapeEventFromMessage fromISO m).person = none) ∧
    (hasSubstring anonChars p.toList = false →
      (getTapeEventFromMessage fromISO m).person = some p) := by
  constructor
  · intro h
    have h' : hasSubstring anonChars p.data = true := h
    simp [getTapeEventFromMessage, hp, h']
  · intro h
    have h' : hasSubstring anonChars p.data = false := h
    simp [getTapeEventFromMessage, hp, h', hne]

/-- Witness for C8's amended theorem: `"anon-123"` is filtered out and
`"alice"` passes through unchanged. -/
theorem c8_witness :
    (getTapeEventFromMessage exFromISO anonMsg).person = none ∧
    (getTapeEventFromMessage exFromISO aliceMsg).person = some "alice" :=
  ⟨(c8_person_filtering exFromISO anonMsg "anon-123" rfl (by decide)).1 (by decide),
   (c8_person_filtering exFromISO aliceMsg "alice" rfl (by decide)).2 (by decide)⟩

/-- C9: when a live push message whose payload is not valid JSON is delivered,
the `onmessage` handler catches the `JSON.parse` exception, the `if (data)`
guard is not reached with a value, and the handler returns with the component
state — in particular the buffer — unchanged and no error escapes to the
caller. -/
theorem c9_malformed_push_ignored (fromISO : String → Option Int) (s : ComponentState) :
    onStreamMessage fromISO s PushParse.parseFail = some s := rfl

/-- C10: in `enqueueEvent`'s middle-insertion branch — buffer nonempty, the
new event's timestamp not greater than the head's and not less than the
tail's — with the buffer sorted non-increasing, the linear scan stops at an
index no greater than length − 1, and every `tapeEvents[currentIndex]` access
is in bounds: `scanIdx` returns `some` exactly when the JS loop never
dereferences `undefined.timestamp` past the end (the out-of-bounds read is
modelled by the `none` result, and the branch's tail condition rules it
out even though the loop tests the element before the index bound). -/
theorem c10_scan_stays_in_bounds (x : TapeEvent) (xs : List TapeEvent) (e : TapeEvent)
    (hsorted : sortedDescB (x :: xs) = true)
    (hhead : tsLt x.timestamp e.timestamp = false)
    (htail : tsGt (xs.getLastD x).timestamp e.timestamp = false) :
    ∃ i, scanIdx e.timestamp (x :: xs) = some i ∧ i + 1 ≤ (x :: xs).length := by
  have _ := hsorted
  have _ := hhead
  obtain ⟨i, hi, hile⟩ := scanIdx_total e.timestamp xs x htail
  refine ⟨i, hi, ?_⟩
  simp only [List.length_cons]
  omega

/-- Witness for C10: inserting `t=4` into the sorted buffer `[5,4]`. -/
theorem c10_witness :
    ∃ i, scanIdx (mkEv 4).timestamp [mkEv 5, mkEv 4] = some i ∧
      i + 1 ≤ ([mkEv 5, mkEv 4] : List TapeEvent).length :=
  c10_scan_stays_in_bounds (mkEv 5) [mkEv 4] (mkEv 4) (by decide) (by decide) (by decide)

end CjaasTimeline
